import Mathlib

/-!
Verification development for the title-extraction program `title.py`.

Modelling conventions (shallow embedding):
* Python `str` values are modelled as `List Char`.
* Python floats are modelled as `ℚ`: every claim under study concerns the
  comparison logic of the heuristics (tolerance tests, thresholds), never
  floating-point rounding.
* Python `bytes` values are modelled as `List Nat`.
* Code that can raise returns `Except PyExn`.
* The external transliteration library `unidecode` enters as an explicit
  function parameter `ud`; the real `unidecode` is the identity on ASCII.
-/

namespace Title

abbrev Str := List Char

/-- Exception classes that the modelled Python code can raise. -/
inductive PyExn where
  | typeError
  | ioError
deriving DecidableEq, Repr

/-- Constant `MIN_CHARS = 6` from the source. -/
def MIN_CHARS : Nat := 6

/-- Constant `MAX_WORDS = 20` from the source. -/
def MAX_WORDS : Nat := 20

/-- Constant `MAX_CHARS = MAX_WORDS * 10` from the source. -/
def MAX_CHARS : Nat := MAX_WORDS * 10

/-- Constant `TOLERANCE = 1e-06` from the source. -/
def TOLERANCE : ℚ := 1 / 1000000

/-- Whitespace characters of Python's `str.strip` / `\s` (ASCII range). -/
def isPyWs (c : Char) : Bool :=
  c == ' ' || c == '\t' || c == '\n' || c == '\r' || c == '\x0b' || c == '\x0c'

/-- Python `s.strip()`: drop leading and trailing whitespace. -/
def pyStrip (s : Str) : Str :=
  ((s.dropWhile isPyWs).reverse.dropWhile isPyWs).reverse

/-- Helper `empty_str` from the source: `len(s.strip()) == 0`. -/
def emptyStr (s : Str) : Bool :=
  (pyStrip s).isEmpty

/-- Auxiliary accumulator for `splitBy`: first field and remaining fields. -/
def splitByA (p : Char → Bool) : Str → Str × List Str
  | [] => ([], [])
  | c :: rest =>
    let r := splitByA p rest
    if p c then ([], r.1 :: r.2) else (c :: r.1, r.2)

/-- Python `s.split(sep)` with an explicit one-character separator: split at
every occurrence of the separator, keeping empty fields (`''.split(sep)`
yields `['']`). -/
def splitBy (p : Char → Bool) (s : Str) : List Str :=
  (splitByA p s).1 :: (splitByA p s).2

/-- Python `sep.join(fields)`. -/
def joinSep (sep : Str) : List Str → Str
  | [] => []
  | [w] => w
  | w :: ws => w ++ sep ++ joinSep sep ws

/-- ASCII lower-case letter test (`string.ascii_lowercase`). -/
def isAsciiLower (c : Char) : Bool :=
  decide ('a' ≤ c) && decide (c ≤ 'z')

/-- ASCII upper-case letter test (`string.ascii_uppercase`). -/
def isAsciiUpper (c : Char) : Bool :=
  decide ('A' ≤ c) && decide (c ≤ 'Z')

/-- ASCII letter test (`string.ascii_letters`). -/
def isAsciiLetter (c : Char) : Bool :=
  isAsciiLower c || isAsciiUpper c

/-- ASCII digit test (`string.digits`). -/
def isAsciiDigit (c : Char) : Bool :=
  decide ('0' ≤ c) && decide (c ≤ '9')

/-- Allow-set of `sanitize`: `"-_.() " + string.ascii_letters + string.digits`. -/
def allowChar (c : Char) : Bool :=
  c == '-' || c == '_' || c == '.' || c == '(' || c == ')' || c == ' ' ||
    isAsciiLetter c || isAsciiDigit c

/-- Replacement `re.sub(r': ', ' - ', s)`: left-to-right, non-overlapping. -/
def replaceColonSpace : Str → Str
  | [] => []
  | [c] => [c]
  | c :: d :: rest =>
    if c = ':' ∧ d = ' ' then ' ' :: '-' :: ' ' :: replaceColonSpace rest
    else c :: replaceColonSpace (d :: rest)

/-- Worker for `re.sub(r'\.pdf(\.pdf)*$', '', s)`, operating on the reversed
string: repeatedly drop a leading reversed `.pdf`. -/
def dropPdfRev : Str → Str
  | 'f' :: 'd' :: 'p' :: '.' :: rest => dropPdfRev rest
  | r => r

/-- Strip one or more trailing literal `.pdf` suffixes. -/
def stripPdfSuffix (s : Str) : Str :=
  (dropPdfRev s.reverse).reverse

/-- Character class `[ \t]` of the whitespace-collapsing regex. -/
def isSpaceTab (c : Char) : Bool :=
  c == ' ' || c == '\t'

/-- Worker for the whitespace-collapsing replacement: `prevWs` records
whether the previous character belonged to the current space/tab run. -/
def collapseWsAux : Bool → Str → Str
  | _, [] => []
  | prevWs, c :: rest =>
    if isSpaceTab c then
      if prevWs then collapseWsAux true rest
      else ' ' :: collapseWsAux true rest
    else c :: collapseWsAux false rest

/-- Replacement `re.sub(r'[ \t][ \t]*', ' ', s)`: every maximal run of
spaces/tabs becomes a single space. -/
def collapseWs (s : Str) : Str :=
  collapseWsAux false s

/-- Function `sanitize` (title.py lines 41-68).  The transliteration library
`unidecode` is external to the repository and enters as the parameter `ud`
(the real `unidecode` is the identity on ASCII strings).  The
`UnicodeDecodeError` handler in the source is dead in Python 3 (a `str`
always round-trips through UTF-8), so `ud` is applied unconditionally. -/
def sanitize (ud : Str → Str) (filename : Str) : Str :=
  let words := splitBy (fun c => c == ' ') filename
  let f1 := joinSep [' '] (words.take MAX_WORDS)
  let f2 := if MAX_CHARS < f1.length then f1.take MAX_CHARS else f1
  let f3 := ud f2
  let f4 := f3.map (fun c => if c == ',' then ' ' else c)
  let f5 := replaceColonSpace f4
  let f6 := stripPdfSuffix f5
  let f7 := collapseWs f6
  f7.filter allowChar

/-- State of the Largest-Text Tracker (`largest_text` dict in the source). -/
structure LargestText where
  contents : Str
  y0 : ℚ
  size : ℚ
deriving DecidableEq, Repr

/-- Initial tracker state `{'contents': '', 'y0': 0, 'size': 0}`. -/
def initLargest : LargestText := ⟨[], 0, 0⟩

/-- Replacement `re.sub(r'\n$', ' ', line)`.  The pattern `\n$` (without
`re.MULTILINE`) matches the final newline and, when the text ends in two
newlines, also the one just before it (`$` also matches before a final
newline), both replaced left-to-right. -/
def subTrailingNewline (line : Str) : Str :=
  match line.reverse with
  | '\n' :: '\n' :: r => (' ' :: ' ' :: r).reverse
  | '\n' :: r => (' ' :: r).reverse
  | _ => line

/-- Function `is_close` (title.py lines 111-112), at its default relative
tolerance `TOLERANCE`, the only way the source calls it. -/
def is_close (a b : ℚ) : Bool :=
  decide (|a - b| ≤ TOLERANCE * max |a| |b|)

/-- Function `update_largest_text` (title.py lines 115-139). -/
def update_largest_text (line : Str) (y0 size : ℚ) (largest_text : LargestText) :
    LargestText :=
  if size = largest_text.size ∧ largest_text.size = 0 ∧
      y0 - largest_text.y0 < -TOLERANCE then
    largest_text
  else
    let line' := subTrailingNewline line
    if TOLERANCE < size - largest_text.size then
      ⟨line', y0, size⟩
    else if is_close size largest_text.size then
      ⟨largest_text.contents ++ line', y0, largest_text.size⟩
    else
      largest_text

/-- One page scan of the tracker: the sequence of states produced by a list of
`update_largest_text` calls starting from the initial state. -/
def trackerScan (updates : List (Str × ℚ × ℚ)) : List LargestText :=
  updates.scanl (fun st u => update_largest_text u.1 u.2.1 u.2.2 st) initLargest

/-- Occurrences of one character in a string. -/
def countC (c : Char) (s : Str) : Nat :=
  s.countP (fun x => x == c)

/-- Number of whitespace-delimited words of a string: nonempty fields between
whitespace characters. -/
def wordCount (s : Str) : Nat :=
  ((splitBy isPyWs s).filter (fun w => !w.isEmpty)).length

/-- No two adjacent characters are both in the class `[ \t]`. -/
def noTwoSpaceTab : Str → Bool
  | a :: b :: rest => (!(isSpaceTab a && isSpaceTab b)) && noTwoSpaceTab (b :: rest)
  | _ => true

/-- Test whether a (reversed) string begins with the reversal of `.pdf`. -/
def startsFdp : Str → Bool
  | 'f' :: 'd' :: 'p' :: '.' :: _ => true
  | _ => false

/-- Test whether a string ends with the literal `.pdf`. -/
def endsPdf (s : Str) : Bool :=
  startsFdp s.reverse

/-- ASCII lower-casing, modelling `str.lower` (all phrases the classifier
compares against are ASCII). -/
def asciiLower (c : Char) : Char :=
  if isAsciiUpper c then Char.ofNat (c.toNat + 32) else c

/-- Character class `[0-9 \t-]` used by the placeholder pattern and by the
CID groups. -/
def isDigitSpaceDash (c : Char) : Bool :=
  isAsciiDigit c || c == ' ' || c == '\t' || c == '-'

/-- Occurrence of a literal substring at some position (`re.search` with a
literal pattern). -/
def containsLit (pat s : Str) : Bool :=
  (List.range (s.length + 1)).any (fun i => pat.isPrefixOf (s.drop i))

/-- Match `\s+` followed by the literal `pat`; every literal the source uses
after `\s+` starts with a non-whitespace character, so taking the maximal
whitespace run is equivalent to the regex's existential. -/
def wsPlusLit (pat s : Str) : Bool :=
  decide (1 ≤ (s.takeWhile isPyWs).length) && pat.isPrefixOf (s.dropWhile isPyWs)

/-- Search for `w1\s+w2` anywhere in the string. -/
def searchWordPair (w1 w2 s : Str) : Bool :=
  (List.range (s.length + 1)).any (fun i =>
    w1.isPrefixOf (s.drop i) && wsPlusLit w2 ((s.drop i).drop w1.length))

/-- Search for `w1\s+w2\s+w3` anywhere in the string. -/
def searchWordTriple (w1 w2 w3 s : Str) : Bool :=
  (List.range (s.length + 1)).any (fun i =>
    w1.isPrefixOf (s.drop i) &&
      (let r := (s.drop i).drop w1.length
       decide (1 ≤ (r.takeWhile isPyWs).length) &&
         w2.isPrefixOf (r.dropWhile isPyWs) &&
         (let r2 := (r.dropWhile isPyWs).drop w2.length
          decide (1 ≤ (r2.takeWhile isPyWs).length) &&
            w3.isPrefixOf (r2.dropWhile isPyWs))))

/-- Search for `w.*v` where `.` does not match a newline: an occurrence of
`w`, a later occurrence of `v`, and no newline in the gap. -/
def searchGapNoNewline (w v s : Str) : Bool :=
  (List.range (s.length + 1)).any (fun i =>
    w.isPrefixOf (s.drop i) &&
      (let r := (s.drop i).drop w.length
       (List.range (r.length + 1)).any (fun j =>
         (!((r.take j).contains '\n')) && v.isPrefixOf (r.drop j))))

/-- First alternative of the placeholder pattern,
`^[0-9 \t-]+(abstract|introduction)?\s+$`, as an existential decomposition
into a nonempty class run, an optional keyword and a nonempty trailing
whitespace run. -/
def placeholderAlt1 (t : Str) : Bool :=
  (List.range (t.length + 1)).any (fun i =>
    decide (1 ≤ i) && (t.take i).all isDigitSpaceDash &&
      ([("abstract".toList), ("introduction".toList), ([] : Str)].any (fun w =>
        w.isPrefixOf (t.drop i) &&
          (let r := (t.drop i).drop w.length
           decide (1 ≤ r.length) && r.all isPyWs))))

/-- Second alternative of the placeholder pattern,
`^(abstract|unknown|title|untitled):?$`. -/
def placeholderAlt2 (t : Str) : Bool :=
  [("abstract".toList), ("unknown".toList), ("title".toList),
    ("untitled".toList)].any (fun w => t == w || t == w ++ [':'])

/-- Function `junk_line` (title.py lines 87-104).  The serial-number test
`ascii_length < chars_length / 2` uses Python's exact division, i.e.
`2 * ascii_length < chars_length`. -/
def junk_line (line : Str) : Bool :=
  let stripped := pyStrip line
  let too_small := decide (stripped.length < MIN_CHARS)
  let t := stripped.map asciiLower
  let is_placeholder_text := placeholderAlt1 t || placeholderAlt2 t
  let low := line.map asciiLower
  let is_copyright_info :=
    searchWordPair ("paper".toList) ("title".toList) low ||
    searchWordPair ("technical".toList) ("report".toList) low ||
    containsLit ("proceedings".toList) low ||
    containsLit ("preprint".toList) low ||
    searchWordPair ("to".toList) ("appear".toList) low ||
    containsLit ("submission".toList) low ||
    searchGapNoNewline ("integrated".toList) ("conference".toList) low ||
    searchGapNoNewline ("international".toList) ("conference".toList) low ||
    searchWordPair ("transactions".toList) ("on".toList) low ||
    searchWordPair ("symposium".toList) ("on".toList) low ||
    searchWordTriple ("downloaded".toList) ("from".toList) ("http".toList) low
  let ascii_length := (stripped.filter isAsciiLetter).length
  let chars_length :=
    (stripped.filter (fun c => !(c == ' ' || c == '\t' || c == '\n'))).length
  let is_serial_number := decide (2 * ascii_length < chars_length)
  too_small || is_placeholder_text || is_copyright_info || is_serial_number

/-- Extension component of `os.path.splitext` (POSIX rules): the base name
from its last dot onward, unless every character of the base name before that
dot is itself a dot (leading dots never start an extension). -/
def splitextExt (p : Str) : Str :=
  let b := (p.reverse.takeWhile (fun c => !(c == '/'))).reverse
  let rb := b.reverse
  let extRev := rb.takeWhile (fun c => !(c == '.'))
  match rb.dropWhile (fun c => !(c == '.')) with
  | [] => []
  | _ :: restRev =>
    if restRev.all (fun c => c == '.') then [] else '.' :: extRev.reverse

/-- Root component of `os.path.splitext`. -/
def splitextRoot (p : Str) : Str :=
  p.take (p.length - (splitextExt p).length)

/-- POSIX `os.path.basename`: the part after the last slash. -/
def pyBasename (p : Str) : Str :=
  (p.reverse.takeWhile (fun c => !(c == '/'))).reverse

/-- Function `valid_title` (title.py lines 355-356). -/
def valid_title (title : Str) : Bool :=
  !emptyStr title && !junk_line title && emptyStr (splitextExt title)

/-- Function `title_start` (title.py lines 295-299). -/
def title_start (lines : List Str) : Nat :=
  (lines.findIdx? (fun l => !emptyStr l && !junk_line l)).getD 0

/-- Function `title_end` (title.py lines 302-306) at its default
`max_lines = 2`, the only way the source calls it. -/
def title_end (lines : List Str) (start : Nat) : Nat :=
  match ((lines.drop (start + 1)).take 2).findIdx? emptyStr with
  | some k => start + 1 + k
  | none => start + 1

/-- A positioned character (`LTChar`): coordinates, font size, `get_text()`. -/
structure PChar where
  x0 : ℚ
  x1 : ℚ
  y0 : ℚ
  size : ℚ
  text : Str
deriving DecidableEq, Repr

/-- A child of a layout container: an `LTChar`, or any other element (such as
an `LTAnno`) together with its `get_text()`. -/
inductive LTItem where
  | ch (c : PChar)
  | other (t : Str)
deriving DecidableEq, Repr

/-- Text of a layout child. -/
def LTItem.text : LTItem → Str
  | .ch c => c.text
  | .other t => t

/-- `get_text()` of a line of layout children. -/
def lineText (items : List LTItem) : Str :=
  (items.map LTItem.text).flatten

/-- A first-page layout object handed over by the layout provider: a figure
(ungrouped glyph bag), a text box (grouped lines) or a top-level text line. -/
inductive LTObj where
  | figure (items : List LTItem)
  | textBox (lines : List (List LTItem))
  | textLine (items : List LTItem)
deriving DecidableEq, Repr

/-- `get_text()` of a text box: concatenation of its lines' texts. -/
def boxText (lines : List (List LTItem)) : Str :=
  (lines.map lineText).flatten

/-- Representative sampled char of a grouped run: the first `LTChar` among the
children at index `> 1` (the code skips indices 0 and 1, then breaks after the
first `LTChar`). -/
def sampleChar (items : List LTItem) : Option PChar :=
  (items.drop 2).findSome? (fun it =>
    match it with
    | .ch c => some c
    | .other _ => none)

/-- Function `extract_largest_text` (title.py lines 142-161): for a text box,
each line child feeds one sampled update; for a top-level text line, its char
children at index `> 1` feed a single update with the whole line's text. -/
def extract_largest_text (obj : LTObj) (largest : LargestText) : LargestText :=
  match obj with
  | .textBox lines =>
    lines.foldl (fun st l =>
      match sampleChar l with
      | some c => update_largest_text (lineText l) c.y0 c.size st
      | none => st) largest
  | .textLine items =>
    match sampleChar items with
    | some c => update_largest_text (lineText items) c.y0 c.size largest
    | none => largest
  | .figure _ => largest

/-- Enumeration `CHAR_PARSING_STATE` (`INIT_X`, `INIT_D`, `INSIDE_WORD`). -/
inductive ParsingSt where
  | initX
  | initD
  | insideWord
deriving DecidableEq, Repr

/-- Running state of the glyph loop of `extract_figure_text`. -/
structure FigAcc where
  largest : LargestText
  text : Str
  line : Str
  y0 : ℚ
  size : ℚ
  dist : ℚ
  prevX1 : ℚ
  st : ParsingSt
deriving DecidableEq, Repr

/-- Spacing branch of the glyph loop of `extract_figure_text` (title.py lines
202-248): the glyph carries the same size as the running line; the adaptive
distance calibration and the word/line-break heuristics fire, and the glyph's
text is appended unless it is whitespace-only. -/
def figSpacing (acc : FigAcc) (c : PChar) : FigAcc :=
  let d := |c.x0 - acc.prevX1|
  let a1 : ℚ × ℚ × ParsingSt :=
    match acc.st with
    | .initX => (acc.dist, c.x1, ParsingSt.initD)
    | .initD =>
      let d1 := if 0 < acc.dist ∧ d < acc.dist * (5 / 2) then d else acc.dist
      let d2 := if d1 < 1 / 10 then 1 / 10 else d1
      (d2, acc.prevX1, ParsingSt.insideWord)
    | .insideWord => (acc.dist, acc.prevX1, ParsingSt.insideWord)
  let a2 : Str × ℚ × ℚ × ParsingSt :=
    if a1.2.2 = ParsingSt.insideWord ∧ c.x1 < a1.2.1 then
      ([' '], a1.1, c.x1, ParsingSt.initD)
    else if a1.2.2 = ParsingSt.insideWord ∧ a1.1 * (17 / 2) < d then
      ([' '], a1.1, c.x1, a1.2.2)
    else if a1.2.2 = ParsingSt.insideWord ∧ a1.1 < d ∧ d < a1.1 * (5 / 2) then
      (([] : Str), d, c.x1, a1.2.2)
    else
      (([] : Str), a1.1, c.x1, a1.2.2)
  { acc with
    line := acc.line ++ a2.1 ++ (if emptyStr c.text then [] else c.text),
    dist := a2.2.1, prevX1 := a2.2.2.1, st := a2.2.2.2 }

/-- One iteration of the glyph loop of `extract_figure_text`: non-`LTChar`
children are skipped; a size change flushes the running line into the tracker
and the full text and restarts the line; otherwise the spacing branch runs. -/
def figStep (acc : FigAcc) (item : LTItem) : FigAcc :=
  match item with
  | .other _ => acc
  | .ch c =>
    if c.size ≠ acc.size then
      { largest := update_largest_text acc.line acc.y0 acc.size acc.largest,
        text := acc.text ++ acc.line ++ ['\n'],
        line := c.text, y0 := c.y0, size := c.size,
        dist := acc.dist, prevX1 := c.x1, st := ParsingSt.initD }
    else
      figSpacing acc c

/-- Function `extract_figure_text` (title.py lines 164-249): fold the glyph
loop from the initial running state and return `(largest_text, text)` exactly
as they stand when the loop ends — the trailing `line` is not flushed. -/
def extract_figure_text (items : List LTItem) (largest : LargestText) :
    LargestText × Str :=
  let f := items.foldl figStep
    { largest := largest, text := [], line := [], y0 := 0, size := 0,
      dist := 0, prevX1 := 0, st := ParsingSt.initX }
  (f.largest, f.text)

/-- Variant of `extract_figure_text` following the specification's words
(§4.2): after the loop, one final flush of the trailing `line` into both the
tracker and the full text, mirroring the per-line flush of the loop. -/
def extract_figure_text_flushed (items : List LTItem) (largest : LargestText) :
    LargestText × Str :=
  let f := items.foldl figStep
    { largest := largest, text := [], line := [], y0 := 0, size := 0,
      dist := 0, prevX1 := 0, st := ParsingSt.initX }
  (update_largest_text f.line f.y0 f.size f.largest, f.text ++ f.line ++ ['\n'])

/-- Worker for `re.sub(r'(\(cid:[0-9 \t-]*\))*', '', s)` with explicit fuel
(the fuel is always sufficient): delete every substring consisting of `(cid:`,
a run of `[0-9 \t-]`, and `)`. -/
def removeCidAux : Nat → Str → Str
  | 0, s => s
  | _ + 1, [] => []
  | fuel + 1, c :: rest =>
    if ("(cid:".toList).isPrefixOf (c :: rest) then
      match ((c :: rest).drop 5).dropWhile isDigitSpaceDash with
      | ')' :: r2 => removeCidAux fuel r2
      | _ => c :: removeCidAux fuel rest
    else c :: removeCidAux fuel rest

/-- CID-artifact removal applied by `pdf_text` to the tracker contents. -/
def removeCid (s : Str) : Str :=
  removeCidAux (s.length + 1) s

/-- Visible character count used by the body-text skip rule of `pdf_text`:
`len(re.sub(r'[ \t\n]', '', text.strip()))`. -/
def visibleCharCount (t : Str) : Nat :=
  ((pyStrip t).filter (fun c => !(c == ' ' || c == '\t' || c == '\n'))).length

/-- One iteration of the layout-object loop of `pdf_text` (title.py lines
271-285), acting on the accumulated pair `(largest_text, text)`. -/
def pdfTextStep (lt_obj : LTObj) (acc : LargestText × Str) :
    LargestText × Str :=
  match lt_obj with
  | .figure items =>
    let r := extract_figure_text items acc.1
    (r.1, acc.2 ++ r.2)
  | .textBox lines =>
    if MAX_CHARS * 2 < visibleCharCount (boxText lines) then acc
    else (extract_largest_text (.textBox lines) acc.1,
      acc.2 ++ boxText lines ++ ['\n'])
  | .textLine items =>
    if MAX_CHARS * 2 < visibleCharCount (lineText items) then acc
    else (extract_largest_text (.textLine items) acc.1,
      acc.2 ++ lineText items ++ ['\n'])

/-- Function `pdf_text` (title.py lines 252-292) as its observable effect on
the first page's layout objects (the source returns from inside the page
loop, so only the first page is processed), followed by CID cleanup of the
tracker contents. -/
def pdf_text (page : List LTObj) : LargestText × Str :=
  let r := page.foldl (fun acc obj => pdfTextStep obj acc) (initLargest, [])
  (⟨removeCid r.1.contents, r.1.y0, r.1.size⟩, r.2)

/-- Function `text_title` (title.py lines 309-328). -/
def text_title (page : List LTObj) : Str :=
  let r := pdf_text page
  let text :=
    if emptyStr r.1.contents then
      let lines := splitBy (fun c => c == '\n') (pyStrip r.2)
      let i := title_start lines
      let j := title_end lines i
      joinSep [' '] (((lines.drop i).take (j - i)).map pyStrip)
    else pyStrip r.1.contents
  (text.filter (fun c => !(c == '.'))).filter (fun c => !(c == '\t' || c == '\n'))

/-- Python `bytes.strip()` whitespace bytes. -/
def isWsByte (n : Nat) : Bool :=
  n == 32 || n == 9 || n == 10 || n == 13 || n == 11 || n == 12

/-- Python `bytes.strip()`. -/
def bytesStrip (b : List Nat) : List Nat :=
  ((b.dropWhile isWsByte).reverse.dropWhile isWsByte).reverse

/-- Python 3 semantics of `bytes.split` applied to a `str` separator: the
separator must be bytes-like, so the call raises `TypeError` unconditionally.
This is the first processing step of `pdftotext_title` on the captured stdout
bytes. -/
def pyBytesSplitStr (_ : List Nat) (_ : Str) : Except PyExn (List (List Nat)) :=
  .error .typeError

/-- Hypothetical decoding used only in the unreachable success branch of
`pdftotext_title`. -/
def bytesToStr (b : List Nat) : Str :=
  b.map Char.ofNat

/-- Line-window selection and cleanup of `pdftotext_title` (title.py lines
342-352): select `lines[i:j]`, join the stripped lines with spaces, then
remove dots and tabs/newlines. -/
def pdftotext_select (lines : List Str) : Str :=
  let i := title_start lines
  let j := title_end lines i
  let text := joinSep [' '] (((lines.drop i).take (j - i)).map pyStrip)
  (text.filter (fun c => !(c == '.'))).filter (fun c => !(c == '\t' || c == '\n'))

/-- Function `pdftotext_title` (title.py lines 331-352), parameterized by the
stdout bytes captured from the subprocess.  The first processing step
`out.strip().split('\n')` raises `TypeError` in Python 3; the selector
pipeline after it is unreachable. -/
def pdftotext_title (out : List Nat) : Except PyExn Str :=
  match pyBytesSplitStr (bytesStrip out) ['\n'] with
  | .error e => .error e
  | .ok ls => .ok (pdftotext_select (ls.map bytesToStr))

/-- A document-info record of the metadata provider: a Python `dict` mapping
string keys to string values (pdfminer's `PDFDocument.info` is a list of such
dicts). -/
abbrev MetaDict := List (Str × Str)

/-- Python `hasattr(record, name)` for a `dict` record: `hasattr` looks up
object *attributes*, never mapping keys, so it is `False` on a dict record
regardless of the keys the dict holds. -/
def pyDictHasattr (_ : MetaDict) (_ : Str) : Bool := false

/-- Python `record[key]` on a dict record (never reached by `meta_title`). -/
def dictItem (m : MetaDict) (k : Str) : Str :=
  ((m.find? (fun kv => kv.1 == k)).map (fun kv => kv.2)).getD []

/-- Key-membership test of a dict record (what the source presumably meant to
check instead of `hasattr`). -/
def dictHasKey (m : MetaDict) (k : Str) : Bool :=
  (m.find? (fun kv => kv.1 == k)).isSome

/-- Loop of `meta_title` over the docinfo records. -/
def metaTitleGo : List MetaDict → Str
  | [] => []
  | m :: rest =>
    if pyDictHasattr m ("title".toList) then dictItem m ("title".toList)
    else if pyDictHasattr m ("Title".toList) then dictItem m ("Title".toList)
    else if pyDictHasattr m ("TITLE".toList) then dictItem m ("TITLE".toList)
    else metaTitleGo rest

/-- Function `meta_title` (title.py lines 71-84), parameterized by the
document info delivered by the metadata provider (`None` or a list of dict
records). -/
def meta_title (docinfo : Option (List MetaDict)) : Str :=
  match docinfo with
  | none => []
  | some ds => metaTitleGo ds

/-- Function `pdf_title` (title.py lines 359-380), parameterized by the
outcomes of its environment interactions: the result of evaluating
`meta_title(filename)` (including any exception raised while opening or
parsing the file), the result of `text_title(filename)` likewise, the stdout
bytes captured from the `pdftotext` subprocess, and the file name.  The first
two strategies are wrapped in `try/except Exception`; the third is not. -/
def pdf_title (metaRes : Except PyExn Str) (textRes : Except PyExn Str)
    (ptOut : List Nat) (filename : Str) : Except PyExn Str :=
  let m : Option Str :=
    match metaRes with
    | .ok t => if valid_title t then some t else none
    | .error _ => none
  match m with
  | some t => .ok t
  | none =>
    let tt : Option Str :=
      match textRes with
      | .ok t => if valid_title t then some t else none
      | .error _ => none
    match tt with
    | some t => .ok t
    | none =>
      match pdftotext_title ptOut with
      | .error e => .error e
      | .ok t =>
        if valid_title t then .ok t
        else .ok (pyBasename (splitextRoot filename))

theorem update_size_mono (line : Str) (y0 size : ℚ) (st : LargestText) :
    st.size ≤ (update_largest_text line y0 size st).size := by
  unfold update_largest_text
  split
  · exact le_refl _
  · split
    · next h =>
      have ht : (0 : ℚ) < TOLERANCE := by norm_num [TOLERANCE]
      simp only
      linarith
    · split
      · exact le_refl _
      · exact le_refl _

theorem scanl_head {α β : Type} (f : β → α → β) (b : β) (l : List α) :
    (l.scanl f b).head? = some b := by
  cases l <;> simp [List.scanl_nil, List.scanl_cons]

theorem chain_scanl_update (us : List (Str × ℚ × ℚ)) :
    ∀ st : LargestText,
      List.Chain' (fun a b : LargestText => a.size ≤ b.size)
        (us.scanl (fun st u => update_largest_text u.1 u.2.1 u.2.2 st) st) := by
  induction us with
  | nil => intro st; simp
  | cons u us ih =>
    intro st
    rw [List.scanl_cons, List.singleton_append, List.chain'_cons']
    refine ⟨?_, ih _⟩
    intro y hy
    rw [scanl_head] at hy
    simp only [Option.mem_def, Option.some.injEq] at hy
    subst hy
    exact update_size_mono _ _ _ _

/-- Claim C5: across any sequence of tracker updates starting from the initial
state, the `size` field never decreases from one state to the next. -/
theorem c5_tracker_size_monotone (updates : List (Str × ℚ × ℚ)) :
    List.Chain' (fun a b : LargestText => a.size ≤ b.size)
      (trackerScan updates) :=
  chain_scanl_update updates initLargest

/-- Claim C6: when both the incoming size and the state's size are exactly
zero and the incoming `y0` lies below the state's `y0` by more than the
tolerance (`y0 - st.y0 < -TOLERANCE`, i.e. the incoming line is not above the
state's line within tolerance), the tracker returns the state unchanged. -/
theorem c6_zero_size_guard (line : Str) (y0 size : ℚ) (st : LargestText)
    (h0 : size = 0) (h0' : st.size = 0) (hy : y0 - st.y0 < -TOLERANCE) :
    update_largest_text line y0 size st = st := by
  unfold update_largest_text
  rw [if_pos ⟨by rw [h0, h0'], h0', hy⟩]

theorem c6_zero_size_guard_witness :
    (0 : ℚ) = 0 ∧ initLargest.size = 0 ∧
      (-1 : ℚ) - initLargest.y0 < -TOLERANCE ∧
      update_largest_text ['x'] (-1) 0 initLargest = initLargest :=
  ⟨rfl, rfl, by norm_num [initLargest, TOLERANCE],
    c6_zero_size_guard ['x'] (-1) 0 initLargest rfl rfl
      (by norm_num [initLargest, TOLERANCE])⟩

theorem update_replaces (line : Str) (y0 size : ℚ) (st : LargestText)
    (hguard : ¬(size = st.size ∧ st.size = 0 ∧ y0 - st.y0 < -TOLERANCE))
    (hbig : TOLERANCE < size - st.size) :
    update_largest_text line y0 size st = ⟨subTrailingNewline line, y0, size⟩ := by
  unfold update_largest_text
  rw [if_neg hguard]
  simp only [if_pos hbig]

theorem update_appends (line : Str) (y0 size : ℚ) (st : LargestText)
    (hguard : ¬(size = st.size ∧ st.size = 0 ∧ y0 - st.y0 < -TOLERANCE))
    (hbig : ¬(TOLERANCE < size - st.size))
    (hclose : is_close size st.size = true) :
    update_largest_text line y0 size st =
      ⟨st.contents ++ subTrailingNewline line, y0, st.size⟩ := by
  unfold update_largest_text
  rw [if_neg hguard]
  simp only [if_neg hbig, if_pos hclose]

theorem is_close_of_nonneg (a b : ℚ) (ha : 0 ≤ a) (hb : 0 ≤ b) (hba : b ≤ a)
    (h : a - b ≤ TOLERANCE * a) : is_close a b = true := by
  simp only [is_close, decide_eq_true_eq]
  rw [abs_of_nonneg (by linarith : (0 : ℚ) ≤ a - b), abs_of_nonneg ha,
    abs_of_nonneg hb, max_eq_left hba]
  exact h

/-- Claim C7, counterexample: two consecutive updates whose sizes pass the
symmetric relative-tolerance test can still *replace* the state instead of
appending, because the strictly-larger branch (`size - st.size > TOLERANCE`)
is checked first and wins when the absolute difference exceeds `TOLERANCE`
even though the relative test succeeds (sizes 2000000 and 2000001). -/
theorem c7_counterexample :
    is_close 2000001 2000000 = true ∧
      (update_largest_text ['B'] 0 2000001
          (update_largest_text ['A'] 0 2000000 initLargest)).contents = ['B'] := by
  have h1 := update_replaces ['A'] 0 2000000 initLargest
      (by intro h; simp [initLargest] at h)
      (by norm_num [initLargest, TOLERANCE])
  have hA : subTrailingNewline ['A'] = ['A'] := rfl
  have h2 := update_replaces ['B'] 0 2000001 (⟨['A'], 0, 2000000⟩ : LargestText)
      (by intro h; norm_num at h)
      (by norm_num [TOLERANCE])
  refine ⟨?_, ?_⟩
  · exact is_close_of_nonneg 2000001 2000000 (by norm_num) (by norm_num)
      (by norm_num) (by norm_num [TOLERANCE])
  · rw [h1, hA, h2]
    rfl

/-- Claim C7 as amended: when the incoming size passes the symmetric relative
tolerance test against the state's size, the zero-size guard does not fire,
and the strictly-larger test (checked first) does not fire either, the update
appends the line to the contents and moves `y0`, keeping the state's size. -/
theorem c7_close_appends (line : Str) (y0 size : ℚ) (st : LargestText)
    (hguard : ¬(size = st.size ∧ st.size = 0 ∧ y0 - st.y0 < -TOLERANCE))
    (hbig : ¬(TOLERANCE < size - st.size))
    (hclose : is_close size st.size = true) :
    update_largest_text line y0 size st =
      ⟨st.contents ++ subTrailingNewline line, y0, st.size⟩ :=
  update_appends line y0 size st hguard hbig hclose

theorem c7_close_appends_witness :
    update_largest_text ("Networks".toList) 698 (24000001 / 2000000)
        (update_largest_text ("Neural ".toList) 700 12 initLargest) =
      ⟨"Neural Networks".toList, 698, 12⟩ := by
  have h1 := update_replaces ("Neural ".toList) 700 12 initLargest
      (by intro h; simp [initLargest] at h)
      (by norm_num [initLargest, TOLERANCE])
  have hN : subTrailingNewline ("Neural ".toList) = "Neural ".toList := rfl
  have h2 := c7_close_appends ("Networks".toList) 698 (24000001 / 2000000)
      (⟨"Neural ".toList, 700, 12⟩ : LargestText)
      (by intro h; norm_num at h)
      (by norm_num [TOLERANCE])
      (is_close_of_nonneg (24000001 / 2000000) 12 (by norm_num) (by norm_num)
        (by norm_num) (by norm_num [TOLERANCE]))
  rw [h1, hN, h2]
  rfl

/-- Claim C1 (code bug): `pdf_title` does raise.  When the metadata and
layout strategies both fail (e.g. a non-existent path makes `meta_title` and
`text_title` raise, both caught), control reaches `pdftotext_title`, whose
first processing step `out.strip().split('\n')` applies `bytes.split` to a
`str` separator and raises `TypeError` in Python 3 — outside any `try`
block, so `pdf_title` propagates it instead of returning a string. -/
theorem c1_pdf_title_raises :
    pdf_title (Except.error PyExn.ioError) (Except.error PyExn.ioError) []
      ("nonexistent.pdf".toList) = Except.error PyExn.typeError := rfl

/-- Claim C9 (code bug): documentation info that does contain a `Title` key is
ignored.  `hasattr` inspects object attributes, not dict keys, so the key
`Title` of the record is never found and `meta_title` returns the empty
string. -/
theorem c9_meta_title_ignores_title_key :
    dictHasKey [("Title".toList, "Some Title".toList)] ("Title".toList) = true ∧
      meta_title (some [[("Title".toList, "Some Title".toList)]]) = [] :=
  ⟨rfl, rfl⟩

/-- Helper: the flush of the empty initial line into the initial tracker state
leaves the state unchanged (`is_close 0 0` holds, and appending the empty
line changes nothing). -/
theorem update_zero_init : update_largest_text [] 0 0 initLargest = initLargest := by
  have h := update_appends [] 0 0 initLargest
      (by intro h; norm_num [initLargest, TOLERANCE] at h)
      (by norm_num [initLargest, TOLERANCE])
      (is_close_of_nonneg 0 0 (le_refl 0) (le_refl 0) (le_refl 0)
        (by norm_num [TOLERANCE]))
  rw [h]
  rfl

/-- Helper: the spacing branch of the glyph loop never touches the tracker,
the full text or the running size. -/
theorem figSpacing_preserves (acc : FigAcc) (c : PChar) :
    (figSpacing acc c).largest = acc.largest ∧
      (figSpacing acc c).text = acc.text ∧
      (figSpacing acc c).size = acc.size := by
  unfold figSpacing
  exact ⟨rfl, rfl, rfl⟩

/-- Helper: the new-line branch of the glyph loop, taken when the glyph's
size differs from the running size. -/
theorem figStep_newline (acc : FigAcc) (c : PChar) (h : c.size ≠ acc.size) :
    figStep acc (LTItem.ch c) =
      { largest := update_largest_text acc.line acc.y0 acc.size acc.largest,
        text := acc.text ++ acc.line ++ ['\n'],
        line := c.text, y0 := c.y0, size := c.size,
        dist := acc.dist, prevX1 := c.x1, st := ParsingSt.initD } := by
  unfold figStep
  dsimp only
  rw [if_pos h]

/-- Helper: the glyph loop runs the spacing branch when the glyph's size
equals the running size. -/
theorem figStep_same (acc : FigAcc) (c : PChar) (h : c.size = acc.size) :
    figStep acc (LTItem.ch c) = figSpacing acc c := by
  unfold figStep
  dsimp only
  rw [if_neg (fun hne => hne h)]

/-- Helper: folding the glyph loop over glyphs that all carry the running
size leaves tracker, text and size untouched (only `line` and the spacing
state evolve). -/
theorem figloop_const_size (s : ℚ) (gs : List PChar) :
    ∀ acc : FigAcc, acc.size = s → (∀ g ∈ gs, g.size = s) →
      ((gs.map LTItem.ch).foldl figStep acc).largest = acc.largest ∧
        ((gs.map LTItem.ch).foldl figStep acc).text = acc.text ∧
        ((gs.map LTItem.ch).foldl figStep acc).size = s := by
  induction gs with
  | nil => intro acc hs _; exact ⟨rfl, rfl, hs⟩
  | cons g rest ih =>
    intro acc hs hall
    have hg : g.size = s := hall g (List.mem_cons_self _ _)
    have hstep : figStep acc (LTItem.ch g) = figSpacing acc g :=
      figStep_same acc g (by rw [hg, hs])
    simp only [List.map_cons, List.foldl_cons, hstep]
    have hp := figSpacing_preserves acc g
    have hrec := ih (figSpacing acc g) (by rw [hp.2.2, hs])
      (fun g' hg' => hall g' (List.mem_cons_of_mem _ hg'))
    exact ⟨hrec.1.trans hp.1, hrec.2.1.trans hp.2.1, hrec.2.2⟩

/-- Claim C2, counterexample: for the single-glyph figure `A` (size 12), the
reconstructor returns the untouched initial tracker and the text `"\n"` —
the trailing line `A` is dropped — while the specification's final-flush
variant returns a different pair. -/
theorem c2_counterexample :
    extract_figure_text [LTItem.ch ⟨0, 1, 700, 12, ['A']⟩] initLargest =
        (initLargest, ['\n']) ∧
      extract_figure_text [LTItem.ch ⟨0, 1, 700, 12, ['A']⟩] initLargest ≠
        extract_figure_text_flushed [LTItem.ch ⟨0, 1, 700, 12, ['A']⟩]
          initLargest := by
  have hstep :
      figStep
          { largest := initLargest, text := [], line := [], y0 := 0, size := 0,
            dist := 0, prevX1 := 0, st := ParsingSt.initX }
          (LTItem.ch ⟨0, 1, 700, 12, ['A']⟩) =
        { largest := update_largest_text [] 0 0 initLargest, text := ['\n'],
          line := ['A'], y0 := 700, size := 12, dist := 0, prevX1 := 1,
          st := ParsingSt.initD } :=
    figStep_newline _ _ (by norm_num)
  constructor
  · unfold extract_figure_text
    simp only [List.foldl_cons, List.foldl_nil, hstep, update_zero_init]
  · unfold extract_figure_text extract_figure_text_flushed
    simp only [List.foldl_cons, List.foldl_nil, hstep, update_zero_init]
    intro h
    have h2 := congrArg Prod.snd h
    simp only at h2
    have := congrArg List.length h2
    simp [List.length_append] at this

/-- Claim C2 as amended: no final flush happens after the glyph loop, so the
trailing line is dropped.  In particular, for any non-empty figure whose
glyphs all share one non-zero size, the whole figure forms a single line that
is never flushed: the reconstructor returns the untouched initial tracker
state and a full text consisting of the single newline emitted when the first
glyph flushed the empty initial line. -/
theorem c2_trailing_line_dropped (gs : List PChar) (s : ℚ) (hs : s ≠ 0)
    (hne : gs ≠ []) (hall : ∀ g ∈ gs, g.size = s) :
    extract_figure_text (gs.map LTItem.ch) initLargest = (initLargest, ['\n']) := by
  match gs, hne with
  | g :: rest, _ =>
    have hg : g.size = s := hall g (List.mem_cons_self _ _)
    have hstep :
        figStep
            { largest := initLargest, text := [], line := [], y0 := 0, size := 0,
              dist := 0, prevX1 := 0, st := ParsingSt.initX }
            (LTItem.ch g) =
          { largest := update_largest_text [] 0 0 initLargest, text := ['\n'],
            line := g.text, y0 := g.y0, size := g.size, dist := 0,
            prevX1 := g.x1, st := ParsingSt.initD } :=
      figStep_newline _ _ (by intro hcon; rw [hg] at hcon; exact hs hcon)
    unfold extract_figure_text
    simp only [List.map_cons, List.foldl_cons, hstep, update_zero_init]
    have hrec := figloop_const_size s rest
        { largest := initLargest, text := ['\n'], line := g.text, y0 := g.y0,
          size := g.size, dist := 0, prevX1 := g.x1, st := ParsingSt.initD }
        hg (fun g' hg' => hall g' (List.mem_cons_of_mem _ hg'))
    rw [Prod.ext_iff]
    exact ⟨hrec.1, hrec.2.1⟩

theorem c2_trailing_line_dropped_witness :
    (12 : ℚ) ≠ 0 ∧
      ([⟨0, 1, 700, 12, ['A']⟩] : List PChar) ≠ [] ∧
      extract_figure_text ([(⟨0, 1, 700, 12, ['A']⟩ : PChar)].map LTItem.ch)
        initLargest = (initLargest, ['\n']) :=
  ⟨by norm_num, by simp,
    c2_trailing_line_dropped [⟨0, 1, 700, 12, ['A']⟩] 12 (by norm_num)
      (by simp) (by intro g hg; simp at hg; rw [hg])⟩

set_option maxRecDepth 40000 in
/-- Claim C8, counterexample: a text block with 500 visible characters is
skipped entirely by the grouped-text path (both the tracker and the full text
stay unchanged), yet 500 does not exceed `40 * MAX_WORDS = 800` — the code's
threshold is `MAX_CHARS * 2 = 400`. -/
theorem c8_counterexample :
    pdfTextStep (LTObj.textBox [[LTItem.other (List.replicate 500 'a')]])
        (initLargest, []) = (initLargest, []) ∧
      visibleCharCount (boxText [[LTItem.other (List.replicate 500 'a')]]) = 500 ∧
      ¬(40 * MAX_WORDS <
        visibleCharCount (boxText [[LTItem.other (List.replicate 500 'a')]])) := by
  refine ⟨?_, ?_, ?_⟩
  · rfl
  · rfl
  · decide

/-- Claim C8 as amended: the grouped-text path of `pdf_text` leaves the
`(tracker, full text)` pair unchanged on a text block exactly when the
block's visible character count (spaces, tabs and newlines ignored) exceeds
`MAX_CHARS * 2` — that is `20 * MAX_WORDS = 400`, not `40 * MAX_WORDS`;
otherwise the block's text plus a newline is appended, so the pair always
changes. -/
theorem c8_skip_iff (lines : List (List LTItem)) (st : LargestText) (txt : Str) :
    pdfTextStep (LTObj.textBox lines) (st, txt) = (st, txt) ↔
      MAX_CHARS * 2 < visibleCharCount (boxText lines) := by
  unfold pdfTextStep
  dsimp only
  constructor
  · intro h
    by_contra hc
    rw [if_neg hc] at h
    have h2 := congrArg Prod.snd h
    simp only at h2
    have h3 := congrArg List.length h2
    simp [List.length_append] at h3
  · intro h
    rw [if_pos h]

/-- Helper: a character surviving `filter p` satisfies `p`. -/
theorem not_mem_filter_of_false {p : Char → Bool} {c : Char} {t : Str}
    (hp : p c = false) : c ∉ t.filter p := by
  intro hmem
  have := List.of_mem_filter hmem
  rw [hp] at this
  exact Bool.false_ne_true this

/-- Helper: the final cleanup of `text_title`/`pdftotext_title` leaves no dot,
tab or newline in the produced candidate. -/
theorem stripDots_no_special (t : Str) :
    '.' ∉ ((t.filter (fun c => !(c == '.'))).filter
        (fun c => !(c == '\t' || c == '\n'))) ∧
      '\t' ∉ ((t.filter (fun c => !(c == '.'))).filter
        (fun c => !(c == '\t' || c == '\n'))) ∧
      '\n' ∉ ((t.filter (fun c => !(c == '.'))).filter
        (fun c => !(c == '\t' || c == '\n'))) := by
  refine ⟨?_, ?_, ?_⟩
  · intro hmem
    have hsub : ('.' : Char) ∈ t.filter (fun c => !(c == '.')) :=
      List.mem_of_mem_filter hmem
    exact not_mem_filter_of_false (by decide) hsub
  · exact not_mem_filter_of_false (by decide)
  · exact not_mem_filter_of_false (by decide)

/-- Helper: a dot-free path has an empty `os.path.splitext` extension. -/
theorem splitextExt_of_no_dot (p : Str) (hd : '.' ∉ p) : splitextExt p = [] := by
  have hall : ∀ x ∈ p.reverse.takeWhile (fun c => !(c == '/')),
      (!(x == '.')) = true := by
    intro x hx
    have hxr : x ∈ p.reverse := (List.takeWhile_sublist _).subset hx
    have hxp : x ∈ p := List.mem_reverse.mp hxr
    have hxd : x ≠ '.' := fun hEq => hd (hEq ▸ hxp)
    simp [hxd]
  simp only [splitextExt, List.reverse_reverse]
  rw [List.dropWhile_eq_nil_iff.mpr hall]

/-- Claim C10: every candidate title produced by the layout strategy
(`text_title`) or by the selector pipeline of the external-tool strategy
(`pdftotext_title`, lines 342-352) has dots, tabs and newlines removed, so it
contains no `.` and the filesystem-extension conjunct of `valid_title`
(`empty_str(os.path.splitext(title)[1])`) always holds on it. -/
theorem c10_no_extension_check_rejection (page : List LTObj) (lines : List Str) :
    ('.' ∉ text_title page ∧ '\t' ∉ text_title page ∧ '\n' ∉ text_title page ∧
        emptyStr (splitextExt (text_title page)) = true) ∧
      ('.' ∉ pdftotext_select lines ∧ '\t' ∉ pdftotext_select lines ∧
        '\n' ∉ pdftotext_select lines ∧
        emptyStr (splitextExt (pdftotext_select lines)) = true) := by
  constructor
  · have h : ∃ t : Str, text_title page =
        (t.filter (fun c => !(c == '.'))).filter
          (fun c => !(c == '\t' || c == '\n')) := by
      unfold text_title
      exact ⟨_, rfl⟩
    obtain ⟨t, ht⟩ := h
    rw [ht]
    have hs := stripDots_no_special t
    exact ⟨hs.1, hs.2.1, hs.2.2,
      by rw [splitextExt_of_no_dot _ hs.1]; rfl⟩
  · have h : ∃ t : Str, pdftotext_select lines =
        (t.filter (fun c => !(c == '.'))).filter
          (fun c => !(c == '\t' || c == '\n')) := by
      unfold pdftotext_select
      exact ⟨_, rfl⟩
    obtain ⟨t, ht⟩ := h
    rw [ht]
    have hs := stripDots_no_special t
    exact ⟨hs.1, hs.2.1, hs.2.2,
      by rw [splitextExt_of_no_dot _ hs.1]; rfl⟩

theorem mem_splitByA (p : Char → Bool) (x : Char) :
    ∀ s : Str,
      (x ∈ (splitByA p s).1 → x ∈ s ∧ p x = false) ∧
      (∀ w ∈ (splitByA p s).2, x ∈ w → x ∈ s ∧ p x = false)
  | [] => by constructor <;> simp [splitByA]
  | c :: rest => by
    have ih := mem_splitByA p x rest
    cases hpc : p c with
    | true =>
      constructor
      · intro hx
        simp [splitByA, hpc] at hx
      · intro w hw hxw
        simp only [splitByA, hpc, if_true] at hw
        rcases List.mem_cons.mp hw with rfl | hw2
        · have h := ih.1 hxw
          exact ⟨List.mem_cons_of_mem _ h.1, h.2⟩
        · have h := ih.2 w hw2 hxw
          exact ⟨List.mem_cons_of_mem _ h.1, h.2⟩
    | false =>
      constructor
      · intro hx
        simp only [splitByA, hpc, Bool.false_eq_true, if_false] at hx
        rcases List.mem_cons.mp hx with rfl | hx2
        · exact ⟨List.mem_cons_self _ _, hpc⟩
        · have h := ih.1 hx2
          exact ⟨List.mem_cons_of_mem _ h.1, h.2⟩
      · intro w hw hxw
        simp only [splitByA, hpc, Bool.false_eq_true, if_false] at hw
        have h := ih.2 w hw hxw
        exact ⟨List.mem_cons_of_mem _ h.1, h.2⟩

/-- Helper: characters of a `splitBy` field come from the string and never
satisfy the separator predicate. -/
theorem mem_splitBy_field (p : Char → Bool) (s : Str) (w : Str)
    (hw : w ∈ splitBy p s) (x : Char) (hx : x ∈ w) : x ∈ s ∧ p x = false := by
  have h := mem_splitByA p x s
  rcases List.mem_cons.mp hw with rfl | hw2
  · exact h.1 hx
  · exact h.2 w hw2 hx

theorem splitByA_snd_length (p : Char → Bool) :
    ∀ s : Str, (splitByA p s).2.length = s.countP p
  | [] => by simp [splitByA]
  | c :: rest => by
    have ih := splitByA_snd_length p rest
    cases hpc : p c with
    | true => simp [splitByA, hpc, ih, List.countP_cons]
    | false => simp [splitByA, hpc, ih, List.countP_cons]

/-- Helper: the number of `splitBy` fields is the separator count plus one. -/
theorem splitBy_length (p : Char → Bool) (s : Str) :
    (splitBy p s).length = s.countP p + 1 := by
  simp [splitBy, splitByA_snd_length]

theorem countC_append (c : Char) (a b : Str) :
    countC c (a ++ b) = countC c a + countC c b := by
  simp [countC, List.countP_append]

theorem countC_eq_zero_of_not_mem (c : Char) (w : Str) (h : ∀ x ∈ w, x ≠ c) :
    countC c w = 0 := by
  refine List.countP_eq_zero.mpr ?_
  intro a ha
  simp [h a ha]

/-- Helper: joining `n` separator-free fields with a one-character separator
uses `n - 1` separator characters. -/
theorem countC_joinSep_le (c : Char) :
    ∀ l : List Str, (∀ w ∈ l, ∀ x ∈ w, x ≠ c) →
      countC c (joinSep [c] l) ≤ l.length - 1
  | [], _ => by simp [joinSep, countC]
  | [w], h => by
    have h0 : countC c w = 0 :=
      countC_eq_zero_of_not_mem c w (h w (List.mem_cons_self _ _))
    simp [joinSep, h0]
  | w :: x :: t, h => by
    have ih := countC_joinSep_le c (x :: t)
      (fun w' hw' => h w' (List.mem_cons_of_mem _ hw'))
    have h0 : countC c w = 0 :=
      countC_eq_zero_of_not_mem c w (h w (List.mem_cons_self _ _))
    show countC c (w ++ [c] ++ joinSep [c] (x :: t)) ≤ (w :: x :: t).length - 1
    rw [countC_append, countC_append, h0]
    have hc1 : countC c [c] = 1 := by simp [countC]
    rw [hc1]
    simp only [List.length_cons] at ih ⊢
    omega

theorem mem_joinSep (c x : Char) :
    ∀ l : List Str, x ∈ joinSep [c] l → x = c ∨ ∃ w ∈ l, x ∈ w
  | [] => by simp [joinSep]
  | [w] => by
    intro hx
    exact Or.inr ⟨w, List.mem_cons_self _ _, hx⟩
  | w :: y :: t => by
    intro hx
    have hx' : x ∈ w ++ [c] ++ joinSep [c] (y :: t) := hx
    rcases List.mem_append.mp hx' with hx2 | hx3
    · rcases List.mem_append.mp hx2 with hw | hc
      · exact Or.inr ⟨w, List.mem_cons_self _ _, hw⟩
      · exact Or.inl (List.mem_singleton.mp hc)
    · rcases mem_joinSep c x (y :: t) hx3 with h | ⟨w', hw', hxw'⟩
      · exact Or.inl h
      · exact Or.inr ⟨w', List.mem_cons_of_mem _ hw', hxw'⟩

/-- Helper: the comma substitution is the identity on comma-free strings. -/
theorem mapComma_eq_self (t : Str) (h : ',' ∉ t) :
    t.map (fun c => if c == ',' then ' ' else c) = t := by
  have hcongr : ∀ a ∈ t, (fun c => if c == ',' then ' ' else c) a = id a := by
    intro a ha
    have hne : a ≠ ',' := fun hEq => h (hEq ▸ ha)
    simp [hne]
  rw [List.map_congr_left hcongr, List.map_id]

/-- Helper: the colon substitution is the identity on colon-free strings. -/
theorem replaceColonSpace_eq_self : ∀ t : Str, ':' ∉ t → replaceColonSpace t = t
  | [] => fun _ => rfl
  | [_] => fun _ => rfl
  | c :: d :: rest => fun h => by
    have hc : ¬(c = ':' ∧ d = ' ') := fun hcd =>
      h (by rw [hcd.1] at *; exact List.mem_cons_self _ _)
    simp only [replaceColonSpace, if_neg hc]
    rw [replaceColonSpace_eq_self (d :: rest)
      (fun hm => h (List.mem_cons_of_mem _ hm))]

/-- Helper: dropping reversed `.pdf` prefixes yields a suffix. -/
theorem dropPdfRev_suffix (r : Str) : dropPdfRev r <:+ r := by
  induction r using dropPdfRev.induct with
  | case1 rest ih =>
    refine List.IsSuffix.trans ih ?_
    exact (List.suffix_cons _ _).trans ((List.suffix_cons _ _).trans
      ((List.suffix_cons _ _).trans (List.suffix_cons _ _)))
  | case2 r h =>
    rw [dropPdfRev.eq_def]
    split
    · exact absurd rfl (h _)
    · exact List.suffix_refl _

/-- Helper: the suffix-stripping worker never leaves a reversed `.pdf`
prefix. -/
theorem not_startsFdp_dropPdfRev (r : Str) : startsFdp (dropPdfRev r) = false := by
  induction r using dropPdfRev.induct with
  | case1 rest ih => exact ih
  | case2 r h =>
    have hr : dropPdfRev r = r := by
      rw [dropPdfRev.eq_def]
      split
      · exact absurd rfl (h _)
      · rfl
    rw [hr, startsFdp.eq_def]
    split
    · exact absurd rfl (h _)
    · rfl

/-- Helper: the worker is the identity when there is nothing to strip. -/
theorem dropPdfRev_eq_self (r : Str) (h : startsFdp r = false) :
    dropPdfRev r = r := by
  rw [dropPdfRev.eq_def]
  split
  · simp [startsFdp] at h
  · rfl

/-- Helper: `stripPdfSuffix` produces a prefix of its input. -/
theorem stripPdfSuffix_prefixOf (s : Str) : stripPdfSuffix s <+: s := by
  obtain ⟨t, ht⟩ := dropPdfRev_suffix s.reverse
  refine ⟨t.reverse, ?_⟩
  have h2 : (t ++ dropPdfRev s.reverse).reverse = s := by
    rw [ht, List.reverse_reverse]
  rw [List.reverse_append] at h2
  exact h2

theorem countC_cons (c x : Char) (s : Str) :
    countC c (x :: s) = countC c s + if x == c then 1 else 0 := by
  simp [countC, List.countP_cons]

theorem collapseWsAux_true_eq : ∀ rest : Str,
    collapseWsAux true rest = collapseWsAux false (rest.dropWhile isSpaceTab)
  | [] => rfl
  | d :: r => by
    by_cases hd : isSpaceTab d = true
    · rw [List.dropWhile_cons]
      simp only [collapseWsAux, hd, if_true]
      exact collapseWsAux_true_eq r
    · rw [List.dropWhile_cons]
      have hd' : isSpaceTab d = false := Bool.eq_false_iff.mpr hd
      simp only [collapseWsAux, hd', Bool.false_eq_true, if_false]

theorem collapseWs_cons_ws (c : Char) (rest : Str) (h : isSpaceTab c = true) :
    collapseWs (c :: rest) = ' ' :: collapseWs (rest.dropWhile isSpaceTab) := by
  unfold collapseWs
  simp only [collapseWsAux, h, if_true, Bool.false_eq_true, if_false]
  rw [collapseWsAux_true_eq]

theorem collapseWs_cons_not_ws (c : Char) (rest : Str)
    (h : ¬isSpaceTab c = true) :
    collapseWs (c :: rest) = c :: collapseWs rest := by
  unfold collapseWs
  have h' : isSpaceTab c = false := Bool.eq_false_iff.mpr h
  simp only [collapseWsAux, h', Bool.false_eq_true, if_false]

/-- Induction principle matching the run structure of `collapseWs`. -/
theorem collapseWs_induction (P : Str → Prop) (h1 : P [])
    (h2 : ∀ c rest, isSpaceTab c = true →
      P (rest.dropWhile isSpaceTab) → P (c :: rest))
    (h3 : ∀ c rest, ¬isSpaceTab c = true → P rest → P (c :: rest)) :
    ∀ s, P s := by
  have key : ∀ n, ∀ s : Str, s.length ≤ n → P s := by
    intro n
    induction n with
    | zero =>
      intro s hs
      have hnil : s = [] := List.eq_nil_of_length_eq_zero (Nat.le_zero.mp hs)
      rw [hnil]
      exact h1
    | succ n ih =>
      intro s hs
      cases s with
      | nil => exact h1
      | cons c rest =>
        by_cases hws : isSpaceTab c = true
        · refine h2 c rest hws (ih _ ?_)
          have := (List.dropWhile_sublist (l := rest)
            (p := isSpaceTab)).length_le
          simp only [List.length_cons] at hs
          omega
        · refine h3 c rest hws (ih rest ?_)
          simp only [List.length_cons] at hs
          omega
  exact fun s => key s.length s (le_refl _)

/-- Helper: collapsing whitespace never lengthens a string. -/
theorem length_collapseWs_le (s : Str) : (collapseWs s).length ≤ s.length := by
  induction s using collapseWs_induction with
  | h1 => simp [collapseWs, collapseWsAux]
  | h2 c rest h ih =>
    rw [collapseWs_cons_ws c rest h]
    have hd := (List.dropWhile_sublist (l := rest) (p := isSpaceTab)).length_le
    simp only [List.length_cons]
    omega
  | h3 c rest h ih =>
    rw [collapseWs_cons_not_ws c rest h]
    simp only [List.length_cons]
    omega

theorem countC_space_cons_space (s : Str) :
    countC ' ' (' ' :: s) = countC ' ' s + 1 := by
  simp [countC, List.countP_cons]

theorem countC_space_cons_tab (s : Str) :
    countC ' ' ('\t' :: s) = countC ' ' s := by
  simp [countC, List.countP_cons]

theorem countC_tab_cons_space (s : Str) :
    countC '\t' (' ' :: s) = countC '\t' s := by
  simp [countC, List.countP_cons]

theorem countC_tab_cons_tab (s : Str) :
    countC '\t' ('\t' :: s) = countC '\t' s + 1 := by
  simp [countC, List.countP_cons]

/-- Helper: the space count of a collapsed string is bounded by the space+tab
count of the input. -/
theorem countC_space_collapseWs_le (s : Str) :
    countC ' ' (collapseWs s) ≤ countC ' ' s + countC '\t' s := by
  induction s using collapseWs_induction with
  | h1 => simp [collapseWs, collapseWsAux, countC]
  | h2 c rest h ih =>
    rw [collapseWs_cons_ws c rest h]
    have hsub := (List.dropWhile_sublist (l := rest) (p := isSpaceTab))
    have hsp : countC ' ' (rest.dropWhile isSpaceTab) ≤ countC ' ' rest :=
      hsub.countP_le _
    have htb : countC '\t' (rest.dropWhile isSpaceTab) ≤ countC '\t' rest :=
      hsub.countP_le _
    have hc : c = ' ' ∨ c = '\t' := by simpa [isSpaceTab] using h
    rcases hc with rfl | rfl
    · rw [countC_space_cons_space, countC_space_cons_space,
        countC_tab_cons_space]
      omega
    · rw [countC_space_cons_space, countC_space_cons_tab,
        countC_tab_cons_tab]
      omega
  | h3 c rest h ih =>
    rw [collapseWs_cons_not_ws c rest h]
    rw [countC_cons ' ' c rest, countC_cons '\t' c rest, countC_cons ' ' c _]
    omega

/-- Helper: characters of a collapsed string come from the input or are the
inserted space. -/
theorem mem_collapseWs (s : Str) (x : Char) :
    x ∈ collapseWs s → x ∈ s ∨ x = ' ' := by
  induction s using collapseWs_induction with
  | h1 => intro hx; simp [collapseWs, collapseWsAux] at hx
  | h2 c rest h ih =>
    intro hx
    rw [collapseWs_cons_ws c rest h] at hx
    rcases List.mem_cons.mp hx with rfl | hx2
    · exact Or.inr rfl
    · rcases ih hx2 with h2 | h2
      · exact Or.inl (List.mem_cons_of_mem _
          ((List.dropWhile_sublist _).subset h2))
      · exact Or.inr h2
  | h3 c rest h ih =>
    intro hx
    rw [collapseWs_cons_not_ws c rest h] at hx
    rcases List.mem_cons.mp hx with rfl | hx2
    · exact Or.inl (List.mem_cons_self _ _)
    · rcases ih hx2 with h2 | h2
      · exact Or.inl (List.mem_cons_of_mem _ h2)
      · exact Or.inr h2

theorem head_dropWhile_false (p : Char → Bool) :
    ∀ l : Str, ∀ d, (l.dropWhile p).head? = some d → p d = false
  | [], d => by simp
  | c :: rest, d => by
    rw [List.dropWhile_cons]
    split
    · exact head_dropWhile_false p rest d
    · next h =>
      intro hd
      simp only [List.head?_cons, Option.some.injEq] at hd
      rw [← hd]
      exact Bool.eq_false_iff.mpr h

theorem noTwoSpaceTab_cons (a : Char) (l : Str)
    (ha : ∀ b, l.head? = some b → ¬(isSpaceTab a = true ∧ isSpaceTab b = true))
    (hl : noTwoSpaceTab l = true) : noTwoSpaceTab (a :: l) = true := by
  cases l with
  | nil => rfl
  | cons b r =>
    have hb := ha b rfl
    simp only [noTwoSpaceTab, Bool.and_eq_true]
    refine ⟨?_, hl⟩
    cases hA : isSpaceTab a <;> cases hB : isSpaceTab b <;> simp_all

theorem noTwoSpaceTab_tail (a : Char) (l : Str)
    (h : noTwoSpaceTab (a :: l) = true) : noTwoSpaceTab l = true := by
  cases l with
  | nil => rfl
  | cons b r =>
    simp only [noTwoSpaceTab, Bool.and_eq_true] at h
    exact h.2

theorem noTwoSpaceTab_pair (a b : Char) (l : Str)
    (h : noTwoSpaceTab (a :: b :: l) = true) :
    ¬(isSpaceTab a = true ∧ isSpaceTab b = true) := by
  simp only [noTwoSpaceTab, Bool.and_eq_true] at h
  intro hcon
  rcases h with ⟨h1, _⟩
  rw [hcon.1, hcon.2] at h1
  simp at h1

theorem head?_collapseWs (s : Str) :
    (collapseWs s).head? = s.head?.map (fun c => if isSpaceTab c then ' ' else c) := by
  cases s with
  | nil => simp [collapseWs, collapseWsAux]
  | cons c rest =>
    by_cases h : isSpaceTab c = true
    · rw [collapseWs_cons_ws c rest h]
      simp [h]
    · rw [collapseWs_cons_not_ws c rest h]
      simp only [Bool.not_eq_true] at h
      simp [h]

/-- Helper: a collapsed string never contains two adjacent space/tab
characters. -/
theorem noTwoSpaceTab_collapseWs (s : Str) :
    noTwoSpaceTab (collapseWs s) = true := by
  induction s using collapseWs_induction with
  | h1 => simp [collapseWs, collapseWsAux, noTwoSpaceTab]
  | h2 c rest h ih =>
    rw [collapseWs_cons_ws c rest h]
    refine noTwoSpaceTab_cons _ _ ?_ ih
    intro b hb hcon
    rw [head?_collapseWs] at hb
    cases hd : (rest.dropWhile isSpaceTab).head? with
    | none => rw [hd] at hb; simp at hb
    | some d =>
      rw [hd] at hb
      simp only [Option.map_some', Option.some.injEq] at hb
      have hdws : isSpaceTab d = false := head_dropWhile_false _ rest d hd
      rw [hdws] at hb
      simp only [Bool.false_eq_true, if_false] at hb
      rw [hb] at hdws
      rw [hcon.2] at hdws
      simp at hdws
  | h3 c rest h ih =>
    rw [collapseWs_cons_not_ws c rest h]
    refine noTwoSpaceTab_cons _ _ ?_ ih
    intro b hb hcon
    exact h hcon.1

/-- Helper: collapsing is the identity on strings without adjacent space/tab
pairs and without tabs. -/
theorem collapseWs_eq_self :
    ∀ s : Str, noTwoSpaceTab s = true → '\t' ∉ s → collapseWs s = s := by
  intro s
  induction s using collapseWs_induction with
  | h1 => intro _ _; simp [collapseWs, collapseWsAux]
  | h2 c rest h ih =>
    intro h2 ht
    have hc : c = ' ' := by
      rcases (by simpa [isSpaceTab] using h : c = ' ' ∨ c = '\t') with h1 | h1
      · exact h1
      · exact absurd (h1 ▸ List.mem_cons_self _ _) ht
    have hdrop : rest.dropWhile isSpaceTab = rest := by
      cases rest with
      | nil => rfl
      | cons d r =>
        rw [List.dropWhile_cons]
        have hd : isSpaceTab d = false := by
          have hp := noTwoSpaceTab_pair c d r h2
          cases hD : isSpaceTab d
          · rfl
          · exact absurd ⟨h, hD⟩ hp
        simp [hd]
    rw [collapseWs_cons_ws c rest h, hdrop, hc]
    rw [hdrop] at ih
    rw [ih (noTwoSpaceTab_tail c rest h2)
      (fun hm => ht (List.mem_cons_of_mem _ hm))]
  | h3 c rest h ih =>
    intro h2 ht
    rw [collapseWs_cons_not_ws c rest h]
    rw [ih (noTwoSpaceTab_tail c rest h2)
      (fun hm => ht (List.mem_cons_of_mem _ hm))]

/-- Helper: collapsing is the identity on space/tab-free strings. -/
theorem collapseWs_of_no_ws :
    ∀ s : Str, (∀ c ∈ s, isSpaceTab c = false) → collapseWs s = s := by
  intro s
  induction s using collapseWs_induction with
  | h1 => intro _; simp [collapseWs, collapseWsAux]
  | h2 c rest h ih =>
    intro hall
    rw [hall c (List.mem_cons_self _ _)] at h
    simp at h
  | h3 c rest h ih =>
    intro hall
    rw [collapseWs_cons_not_ws c rest h,
      ih (fun d hd => hall d (List.mem_cons_of_mem _ hd))]

/-- Helper: a space or tab in the input leaves a space in the collapsed
output. -/
theorem space_mem_collapseWs :
    ∀ s : Str, ∀ c ∈ s, isSpaceTab c = true → ' ' ∈ collapseWs s := by
  intro s
  induction s using collapseWs_induction with
  | h1 => intro c hc _; simp at hc
  | h2 c' rest h ih =>
    intro c hc hws
    rw [collapseWs_cons_ws c' rest h]
    exact List.mem_cons_self _ _
  | h3 c' rest h ih =>
    intro c hc hws
    rw [collapseWs_cons_not_ws c' rest h]
    rcases List.mem_cons.mp hc with rfl | hc2
    · rw [hws] at h; simp at h
    · exact List.mem_cons_of_mem _ (ih c hc2 hws)

/-- Helper: a trailing `.pdf` of the collapsed string was already a trailing
`.pdf` of the input (none of its characters is space or tab, and collapsing
maps whitespace runs to a single space while copying other characters). -/
theorem suffix_pdf_collapseWs :
    ∀ s : Str, ['.', 'p', 'd', 'f'] <:+ collapseWs s →
      ['.', 'p', 'd', 'f'] <:+ s := by
  intro s
  induction s using collapseWs_induction with
  | h1 =>
    intro hsuf
    obtain ⟨v, hv⟩ := hsuf
    rw [show collapseWs [] = [] from rfl] at hv
    simp at hv
  | h2 c rest h ih =>
    intro hsuf
    rw [collapseWs_cons_ws c rest h] at hsuf
    obtain ⟨v, hv⟩ := hsuf
    cases v with
    | nil => simp at hv
    | cons x v' =>
      simp only [List.cons_append, List.cons.injEq] at hv
      have hsuf2 : ['.', 'p', 'd', 'f'] <:+
          collapseWs (rest.dropWhile isSpaceTab) := ⟨v', hv.2⟩
      exact ((ih hsuf2).trans (List.dropWhile_suffix _)).trans
        (List.suffix_cons _ _)
  | h3 c rest h ih =>
    intro hsuf
    rw [collapseWs_cons_not_ws c rest h] at hsuf
    obtain ⟨v, hv⟩ := hsuf
    cases v with
    | nil =>
      simp only [List.nil_append, List.cons.injEq] at hv
      obtain ⟨hc, hrest⟩ := hv
      have hnows : ∀ d ∈ rest, isSpaceTab d = false := by
        intro d hd
        cases hD : isSpaceTab d
        · rfl
        · exfalso
          have hsp : ' ' ∈ collapseWs rest := space_mem_collapseWs rest d hd hD
          rw [← hrest] at hsp
          simp at hsp
      have hrid : rest = ['p', 'd', 'f'] := by
        rw [← collapseWs_of_no_ws rest hnows]
        exact hrest.symm
      refine ⟨[], ?_⟩
      rw [List.nil_append, ← hc, hrid]
    | cons x v' =>
      simp only [List.cons_append, List.cons.injEq] at hv
      exact (ih ⟨v', hv.2⟩).trans (List.suffix_cons _ _)

/-- Helper: `startsFdp` on the reversal captures the trailing-`.pdf`
property. -/
theorem startsFdp_reverse_iff (t : Str) :
    startsFdp t.reverse = true ↔ ['.', 'p', 'd', 'f'] <:+ t := by
  constructor
  · intro h
    rw [startsFdp.eq_def] at h
    split at h
    · next rest heq =>
      refine ⟨rest.reverse, ?_⟩
      have := congrArg List.reverse heq
      rw [List.reverse_reverse] at this
      rw [this]
      simp
    · simp at h
  · intro ⟨v, hv⟩
    rw [← hv]
    rw [List.reverse_append]
    simp [startsFdp]

theorem countP_congr_mem (p q : Char → Bool) :
    ∀ t : Str, (∀ a ∈ t, p a = q a) → t.countP p = t.countP q
  | [], _ => rfl
  | c :: rest, h => by
    rw [List.countP_cons, List.countP_cons, h c (List.mem_cons_self _ _),
      countP_congr_mem p q rest (fun a ha => h a (List.mem_cons_of_mem _ ha))]

/-- Helper: on allow-set characters the Python whitespace class collapses to
the single space character. -/
theorem isPyWs_allow_eq_space (c : Char) (ha : allowChar c = true) :
    isPyWs c = (c == ' ') := by
  cases hw : isPyWs c with
  | false =>
    cases hsp : (c == ' ') with
    | false => rfl
    | true =>
      have hc : c = ' ' := by simpa using hsp
      rw [hc] at hw
      simp [isPyWs] at hw
  | true =>
    have hc : ((((c = ' ' ∨ c = '\t') ∨ c = '\n') ∨ c = '\r') ∨ c = '\x0b') ∨
        c = '\x0c' := by simpa [isPyWs] using hw
    rcases hc with ((((rfl | rfl) | rfl) | rfl) | rfl) | rfl
    · simp
    · exact absurd ha (by decide)
    · exact absurd ha (by decide)
    · exact absurd ha (by decide)
    · exact absurd ha (by decide)
    · exact absurd ha (by decide)

/-- Helper: a string of allow-set characters has at most one more
whitespace-delimited word than it has spaces. -/
theorem wordCount_le_of_allow (t : Str)
    (hallow : ∀ c ∈ t, allowChar c = true) :
    wordCount t ≤ countC ' ' t + 1 := by
  unfold wordCount
  have hcount : t.countP isPyWs = countC ' ' t :=
    countP_congr_mem _ _ t (fun a ha => isPyWs_allow_eq_space a (hallow a ha))
  calc ((splitBy isPyWs t).filter (fun w => !w.isEmpty)).length
      ≤ (splitBy isPyWs t).length := List.length_filter_le _ _
    _ = t.countP isPyWs + 1 := splitBy_length isPyWs t
    _ = countC ' ' t + 1 := by rw [hcount]

/-- Claim C3 as amended: the final character filter guarantees the allow-set
property, and the word and length bounds hold for inputs containing no comma,
no colon and no tab (so that the post-truncation substitutions cannot create
new word separators or expand the string) on which the transliteration acts
as the identity (e.g. ASCII input).  The counterexample
`c3_counterexample` shows both bounds fail without these restrictions. -/
theorem c3_sanitize_bounds (ud : Str → Str) (s : Str)
    (hud : ∀ t, ud t = t) (hcomma : ',' ∉ s) (hcolon : ':' ∉ s)
    (htab : '\t' ∉ s) :
    wordCount (sanitize ud s) ≤ MAX_WORDS ∧
      (sanitize ud s).length ≤ MAX_CHARS ∧
      ∀ c ∈ sanitize ud s, allowChar c = true := by
  have hsan : sanitize ud s =
      (collapseWs (stripPdfSuffix (replaceColonSpace
        ((ud (if MAX_CHARS <
              (joinSep [' ']
                ((splitBy (fun c => c == ' ') s).take MAX_WORDS)).length
            then (joinSep [' ']
              ((splitBy (fun c => c == ' ') s).take MAX_WORDS)).take MAX_CHARS
            else joinSep [' ']
              ((splitBy (fun c => c == ' ') s).take MAX_WORDS))).map
          (fun c => if c == ',' then ' ' else c))))).filter allowChar := rfl
  rw [hsan, hud]
  set f1 := joinSep [' '] ((splitBy (fun c => c == ' ') s).take MAX_WORDS)
    with hf1def
  set f2 := if MAX_CHARS < f1.length then f1.take MAX_CHARS else f1 with hf2def
  have hmem1 : ∀ x ∈ f1, x ∈ s ∨ x = ' ' := by
    intro x hx
    rw [hf1def] at hx
    rcases mem_joinSep ' ' x _ hx with h | ⟨w', hw', hxw'⟩
    · exact Or.inr h
    · exact Or.inl
        (mem_splitBy_field _ s w' (List.mem_of_mem_take hw') x hxw').1
  have hsp1 : countC ' ' f1 ≤ MAX_WORDS - 1 := by
    rw [hf1def]
    have hfields : ∀ w' ∈ (splitBy (fun c => c == ' ') s).take MAX_WORDS,
        ∀ x ∈ w', x ≠ ' ' := by
      intro w' hw' x hx hEq
      have h2 := (mem_splitBy_field _ s w' (List.mem_of_mem_take hw') x hx).2
      rw [hEq] at h2
      simp at h2
    have hj := countC_joinSep_le ' ' _ hfields
    have hlen : ((splitBy (fun c => c == ' ') s).take MAX_WORDS).length ≤
        MAX_WORDS := List.length_take_le _ _
    omega
  have hsub2 : List.Sublist f2 f1 := by
    rw [hf2def]
    split
    · exact List.take_sublist _ _
    · exact List.Sublist.refl _
  have hlen2 : f2.length ≤ MAX_CHARS := by
    rw [hf2def]
    split
    · rw [List.length_take]
      exact min_le_left _ _
    · next h => omega
  have hmem2 : ∀ x ∈ f2, x ∈ s ∨ x = ' ' :=
    fun x hx => hmem1 x (hsub2.subset hx)
  have hsp2 : countC ' ' f2 ≤ MAX_WORDS - 1 :=
    le_trans (hsub2.countP_le _) hsp1
  have hcomma2 : ',' ∉ f2 := by
    intro hm
    rcases hmem2 ',' hm with h | h
    · exact hcomma h
    · exact absurd h (by decide)
  have hcolon2 : ':' ∉ f2 := by
    intro hm
    rcases hmem2 ':' hm with h | h
    · exact hcolon h
    · exact absurd h (by decide)
  have htab2 : '\t' ∉ f2 := by
    intro hm
    rcases hmem2 '\t' hm with h | h
    · exact htab h
    · exact absurd h (by decide)
  rw [mapComma_eq_self f2 hcomma2, replaceColonSpace_eq_self f2 hcolon2]
  set f6 := stripPdfSuffix f2 with hf6def
  have hsub6 : List.Sublist f6 f2 := (stripPdfSuffix_prefixOf f2).sublist
  have hlen6 : f6.length ≤ MAX_CHARS := le_trans hsub6.length_le hlen2
  have hsp6 : countC ' ' f6 ≤ MAX_WORDS - 1 :=
    le_trans (hsub6.countP_le _) hsp2
  have htab6 : '\t' ∉ f6 := fun hm => htab2 (hsub6.subset hm)
  have htabcount6 : countC '\t' f6 = 0 :=
    countC_eq_zero_of_not_mem _ _ (fun x hx hEq => htab6 (hEq ▸ hx))
  have hlen7 : (collapseWs f6).length ≤ MAX_CHARS :=
    le_trans (length_collapseWs_le f6) hlen6
  have hsp7 : countC ' ' (collapseWs f6) ≤ MAX_WORDS - 1 := by
    have := countC_space_collapseWs_le f6
    omega
  refine ⟨?_, ?_, ?_⟩
  · have hallow : ∀ c ∈ (collapseWs f6).filter allowChar, allowChar c = true :=
      fun c hc => List.of_mem_filter hc
    have hw := wordCount_le_of_allow ((collapseWs f6).filter allowChar) hallow
    have hspf : countC ' ' ((collapseWs f6).filter allowChar) ≤
        countC ' ' (collapseWs f6) := (List.filter_sublist _).countP_le _
    have hm : 1 ≤ MAX_WORDS := by norm_num [MAX_WORDS]
    omega
  · exact le_trans (List.length_filter_le _ _) hlen7
  · exact fun c hc => List.of_mem_filter hc

set_option maxRecDepth 200000 in
/-- Claim C3, counterexample: the word bound fails on 21 comma-separated
letters (one word before truncation, commas become spaces afterwards), and
the length bound fails on 66 repetitions of `a:,` (198 characters, one word:
commas become spaces, then each `: ` becomes ` - `, expanding the string to
264 allow-set characters).  Both inputs are pure ASCII, so the
transliteration is the identity. -/
theorem c3_counterexample :
    ¬(wordCount (sanitize id
        ("a,b,c,d,e,f,g,h,i,j,k,l,m,n,o,p,q,r,s,t,u".toList)) ≤ MAX_WORDS) ∧
      ¬((sanitize id ((List.replicate 66 ['a', ':', ',']).flatten)).length ≤
        MAX_CHARS) := by
  constructor
  · decide
  · decide

theorem c3_sanitize_bounds_witness :
    wordCount (sanitize id ("Hello World".toList)) ≤ MAX_WORDS ∧
      (sanitize id ("Hello World".toList)).length ≤ MAX_CHARS ∧
      ∀ c ∈ sanitize id ("Hello World".toList), allowChar c = true :=
  c3_sanitize_bounds id ("Hello World".toList) (fun _ => rfl)
    (by decide) (by decide) (by decide)

theorem joinSep_cons_head (c x : Char) (A : Str) (B : List Str) :
    joinSep [c] ((x :: A) :: B) = x :: joinSep [c] (A :: B) := by
  cases B with
  | nil => rfl
  | cons y ys =>
    show (x :: A) ++ [c] ++ joinSep [c] (y :: ys) =
      x :: (A ++ [c] ++ joinSep [c] (y :: ys))
    simp [List.cons_append]

/-- Helper: joining the split of a string with its own separator restores the
string. -/
theorem joinSep_splitByA (c : Char) :
    ∀ s : Str, joinSep [c] ((splitByA (fun x => x == c) s).1 ::
      (splitByA (fun x => x == c) s).2) = s
  | [] => rfl
  | x :: rest => by
    have ih := joinSep_splitByA c rest
    by_cases hx : (x == c) = true
    · have hxc : x = c := by simpa using hx
      simp only [splitByA, hx, if_true]
      have hstep : joinSep [c] (([] : Str) ::
          (splitByA (fun y => y == c) rest).1 ::
          (splitByA (fun y => y == c) rest).2) =
          c :: joinSep [c] ((splitByA (fun y => y == c) rest).1 ::
          (splitByA (fun y => y == c) rest).2) := rfl
      rw [hstep, ih, hxc]
    · simp only [splitByA, hx, Bool.false_eq_true, if_false]
      rw [joinSep_cons_head, ih]

theorem joinSep_splitBy (c : Char) (s : Str) :
    joinSep [c] (splitBy (fun x => x == c) s) = s :=
  joinSep_splitByA c s

/-- Helper: `sanitize` fixes any string that already looks sanitized: only
allow-set characters, no adjacent space/tab pair, at most `MAX_WORDS - 1`
spaces, at most `MAX_CHARS` characters, and no trailing `.pdf`. -/
theorem sanitize_fixed (ud : Str → Str) (t : Str)
    (hud : ∀ u, (∀ c ∈ u, allowChar c = true) → ud u = u)
    (hallow : ∀ c ∈ t, allowChar c = true)
    (h2 : noTwoSpaceTab t = true)
    (hsp : countC ' ' t ≤ MAX_WORDS - 1)
    (hlen : t.length ≤ MAX_CHARS)
    (hpdf : endsPdf t = false) :
    sanitize ud t = t := by
  have hsplitlen : (splitBy (fun c => c == ' ') t).length ≤ MAX_WORDS := by
    rw [splitBy_length]
    have he : t.countP (fun c => c == ' ') = countC ' ' t := rfl
    have hmw : MAX_WORDS = 20 := rfl
    omega
  have htake : (splitBy (fun c => c == ' ') t).take MAX_WORDS =
      splitBy (fun c => c == ' ') t := List.take_of_length_le hsplitlen
  have hjoin : joinSep [' '] (splitBy (fun c => c == ' ') t) = t :=
    joinSep_splitBy ' ' t
  have hsan : sanitize ud t =
      (collapseWs (stripPdfSuffix (replaceColonSpace
        ((ud (if MAX_CHARS <
              (joinSep [' ']
                ((splitBy (fun c => c == ' ') t).take MAX_WORDS)).length
            then (joinSep [' ']
              ((splitBy (fun c => c == ' ') t).take MAX_WORDS)).take MAX_CHARS
            else joinSep [' ']
              ((splitBy (fun c => c == ' ') t).take MAX_WORDS))).map
          (fun c => if c == ',' then ' ' else c))))).filter allowChar := rfl
  rw [hsan, htake, hjoin]
  rw [if_neg (show ¬(MAX_CHARS < t.length) from by omega)]
  rw [hud t hallow]
  have hcom : ',' ∉ t := fun hm => absurd (hallow ',' hm) (by decide)
  have hcol : ':' ∉ t := fun hm => absurd (hallow ':' hm) (by decide)
  have htab : '\t' ∉ t := fun hm => absurd (hallow '\t' hm) (by decide)
  rw [mapComma_eq_self t hcom, replaceColonSpace_eq_self t hcol]
  have hstrip : stripPdfSuffix t = t := by
    unfold stripPdfSuffix
    rw [dropPdfRev_eq_self t.reverse hpdf]
    exact List.reverse_reverse t
  rw [hstrip, collapseWs_eq_self t h2 htab]
  exact List.filter_eq_self.mpr hallow

/-- Helper: on allow-set-only input (with a transliteration fixing allow-set
strings) the sanitized output again looks sanitized in the sense of
`sanitize_fixed`. -/
theorem sanitize_good (ud : Str → Str) (s : Str)
    (hud : ∀ u, (∀ c ∈ u, allowChar c = true) → ud u = u)
    (hallow : ∀ c ∈ s, allowChar c = true) :
    (∀ c ∈ sanitize ud s, allowChar c = true) ∧
      noTwoSpaceTab (sanitize ud s) = true ∧
      countC ' ' (sanitize ud s) ≤ MAX_WORDS - 1 ∧
      (sanitize ud s).length ≤ MAX_CHARS ∧
      endsPdf (sanitize ud s) = false := by
  have hcomma : ',' ∉ s := fun hm => absurd (hallow ',' hm) (by decide)
  have hcolon : ':' ∉ s := fun hm => absurd (hallow ':' hm) (by decide)
  have htab : '\t' ∉ s := fun hm => absurd (hallow '\t' hm) (by decide)
  have hsan : sanitize ud s =
      (collapseWs (stripPdfSuffix (replaceColonSpace
        ((ud (if MAX_CHARS <
              (joinSep [' ']
                ((splitBy (fun c => c == ' ') s).take MAX_WORDS)).length
            then (joinSep [' ']
              ((splitBy (fun c => c == ' ') s).take MAX_WORDS)).take MAX_CHARS
            else joinSep [' ']
              ((splitBy (fun c => c == ' ') s).take MAX_WORDS))).map
          (fun c => if c == ',' then ' ' else c))))).filter allowChar := rfl
  rw [hsan]
  set f1 := joinSep [' '] ((splitBy (fun c => c == ' ') s).take MAX_WORDS)
    with hf1def
  set f2 := if MAX_CHARS < f1.length then f1.take MAX_CHARS else f1 with hf2def
  have hmem1 : ∀ x ∈ f1, x ∈ s ∨ x = ' ' := by
    intro x hx
    rw [hf1def] at hx
    rcases mem_joinSep ' ' x _ hx with h | ⟨w', hw', hxw'⟩
    · exact Or.inr h
    · exact Or.inl
        (mem_splitBy_field _ s w' (List.mem_of_mem_take hw') x hxw').1
  have hsp1 : countC ' ' f1 ≤ MAX_WORDS - 1 := by
    rw [hf1def]
    have hfields : ∀ w' ∈ (splitBy (fun c => c == ' ') s).take MAX_WORDS,
        ∀ x ∈ w', x ≠ ' ' := by
      intro w' hw' x hx hEq
      have hh := (mem_splitBy_field _ s w' (List.mem_of_mem_take hw') x hx).2
      rw [hEq] at hh
      simp at hh
    have hj := countC_joinSep_le ' ' _ hfields
    have hlen : ((splitBy (fun c => c == ' ') s).take MAX_WORDS).length ≤
        MAX_WORDS := List.length_take_le _ _
    omega
  have hsub2 : List.Sublist f2 f1 := by
    rw [hf2def]
    split
    · exact List.take_sublist _ _
    · exact List.Sublist.refl _
  have hlen2 : f2.length ≤ MAX_CHARS := by
    rw [hf2def]
    split
    · rw [List.length_take]
      exact min_le_left _ _
    · next h => omega
  have hmem2 : ∀ x ∈ f2, x ∈ s ∨ x = ' ' :=
    fun x hx => hmem1 x (hsub2.subset hx)
  have hallow2 : ∀ x ∈ f2, allowChar x = true := by
    intro x hx
    rcases hmem2 x hx with h | rfl
    · exact hallow x h
    · decide
  have hsp2 : countC ' ' f2 ≤ MAX_WORDS - 1 :=
    le_trans (hsub2.countP_le _) hsp1
  have hcomma2 : ',' ∉ f2 := fun hm => absurd (hallow2 ',' hm) (by decide)
  have hcolon2 : ':' ∉ f2 := fun hm => absurd (hallow2 ':' hm) (by decide)
  have htab2 : '\t' ∉ f2 := fun hm => absurd (hallow2 '\t' hm) (by decide)
  rw [hud f2 hallow2, mapComma_eq_self f2 hcomma2,
    replaceColonSpace_eq_self f2 hcolon2]
  set f6 := stripPdfSuffix f2 with hf6def
  have hsub6 : List.Sublist f6 f2 := (stripPdfSuffix_prefixOf f2).sublist
  have hlen6 : f6.length ≤ MAX_CHARS := le_trans hsub6.length_le hlen2
  have hsp6 : countC ' ' f6 ≤ MAX_WORDS - 1 :=
    le_trans (hsub6.countP_le _) hsp2
  have hallow6 : ∀ x ∈ f6, allowChar x = true :=
    fun x hx => hallow2 x (hsub6.subset hx)
  have htab6 : '\t' ∉ f6 := fun hm => htab2 (hsub6.subset hm)
  have htabcount6 : countC '\t' f6 = 0 :=
    countC_eq_zero_of_not_mem _ _ (fun x hx hEq => htab6 (hEq ▸ hx))
  have hpdf6 : endsPdf f6 = false := by
    rw [hf6def]
    unfold endsPdf stripPdfSuffix
    rw [List.reverse_reverse]
    exact not_startsFdp_dropPdfRev _
  have hallow7 : ∀ x ∈ collapseWs f6, allowChar x = true := by
    intro x hx
    rcases mem_collapseWs f6 x hx with h | rfl
    · exact hallow6 x h
    · decide
  have hfilter : (collapseWs f6).filter allowChar = collapseWs f6 :=
    List.filter_eq_self.mpr hallow7
  rw [hfilter]
  refine ⟨hallow7, noTwoSpaceTab_collapseWs f6, ?_, ?_, ?_⟩
  · have := countC_space_collapseWs_le f6
    omega
  · exact le_trans (length_collapseWs_le f6) hlen6
  · cases hE : endsPdf (collapseWs f6)
    · rfl
    · exfalso
      have hsuf := (startsFdp_reverse_iff (collapseWs f6)).mp hE
      have hsuf2 : endsPdf f6 = true :=
        (startsFdp_reverse_iff f6).mpr (suffix_pdf_collapseWs f6 hsuf)
      rw [hpdf6] at hsuf2
      simp at hsuf2

/-- Claim C4 as amended: `sanitize` is idempotent on inputs consisting only
of allow-set characters, provided the transliteration fixes allow-set strings
(as the real `unidecode` does, the allow-set being ASCII).  On general input
a second application can differ (see `c4_counterexample`): the final
character filter can create adjacent spaces that only the second pass
collapses. -/
theorem c4_sanitize_idempotent (ud : Str → Str) (s : Str)
    (hud : ∀ u, (∀ c ∈ u, allowChar c = true) → ud u = u)
    (hallow : ∀ c ∈ s, allowChar c = true) :
    sanitize ud (sanitize ud s) = sanitize ud s := by
  obtain ⟨g1, g2, g3, g4, g5⟩ := sanitize_good ud s hud hallow
  exact sanitize_fixed ud (sanitize ud s) hud g1 g2 g3 g4 g5

/-- Claim C4, counterexample: `sanitize` is not idempotent on the ASCII
string `a ? b`: the first pass drops `?` (not in the allow-set), leaving two
adjacent spaces, which only the second pass collapses, so
`sanitize (sanitize s) = "a b" ≠ "a  b" = sanitize s`. -/
theorem c4_counterexample :
    sanitize id (sanitize id ("a ? b".toList)) ≠
      sanitize id ("a ? b".toList) := by
  decide

theorem c4_sanitize_idempotent_witness :
    sanitize id (sanitize id ("Deep Learning".toList)) =
      sanitize id ("Deep Learning".toList) :=
  c4_sanitize_idempotent id ("Deep Learning".toList)
    (fun _ _ => rfl) (by decide)

end Title
